import Mathlib

/-!
Shallow embedding of the numeric core of `src/fret_app.py` (FRET calculator).

The computational core is the block at lines 76-98 of `fret_app.py`:
data cleaning (`pd.to_numeric` + `dropna` + `sort_values`), numeric
integration (`scipy.integrate.simpson`), the overlap integral `J`, the
Forster distance `R0`, efficiency `E`, distance `r`, and the range check at
lines 135-138.

Exact arithmetic is modelled over `ℚ` where the code manipulates data
(integration, cleaning, efficiency), and over `ℝ`/`ℂ` where the code takes
real sixth roots (Python `**` on floats, which yields a complex number for a
negative base and a non-integral exponent).  Python raising
`ZeroDivisionError` on float division by zero is modelled with `Except`.
-/

namespace FretApp

/-! ### NumericIntegrator: scipy.integrate.simpson

`fret_app.py` calls `simpson(y=..., x=...)` at lines 83 and 88.  The
embedding follows scipy's implementation: `_basic_simpson` applies, to each
consecutive pair of intervals with widths `h0`, `h1`, the weights

  `(h0+h1)/6 * (y0*(2 - 1/(h0/h1)) + y1*(h0+h1)*((h0+h1)/(h0*h1)) + y2*(2 - h0/h1))`;

for an even number of samples scipy integrates the first `N-2` intervals
with `_basic_simpson` and adds Cartwright's correction for the last
interval (computed from the last three samples); for exactly two samples it
uses the trapezoid; numpy's guarded divisions write `0` where a denominator
is `0`, which coincides with `ℚ`'s convention `q / 0 = 0`. -/

/-- One term of scipy's `_basic_simpson`: the quadratic-interpolation weights
for the two consecutive intervals `[x0,x1]`, `[x1,x2]`. -/
def simpPair (x0 y0 x1 y1 x2 y2 : ℚ) : ℚ :=
  let h0 := x1 - x0
  let h1 := x2 - x1
  (h0 + h1) / 6 *
    (y0 * (2 - 1 / (h0 / h1)) + y1 * ((h0 + h1) * ((h0 + h1) / (h0 * h1))) +
      y2 * (2 - h0 / h1))

/-- Tail-worker for `_basic_simpson`: `p` is the left endpoint of the next
interval pair, the list holds the remaining sample points. -/
def basicSimpsonAux (p : ℚ × ℚ) : List (ℚ × ℚ) → ℚ
  | (x1, y1) :: (x2, y2) :: rest =>
      simpPair p.1 p.2 x1 y1 x2 y2 + basicSimpsonAux (x2, y2) rest
  | _ => 0

/-- scipy's `_basic_simpson` over all leading pairs of intervals (a trailing
interval left over by odd interval count contributes nothing here). -/
def basicSimpson : List (ℚ × ℚ) → ℚ
  | [] => 0
  | p :: tl => basicSimpsonAux p tl

/-- Cartwright's correction used by scipy for the final interval when the
number of samples is even: `alpha*y2 + beta*y1 - eta*y0` computed from the
last three samples `(x0,y0), (x1,y1), (x2,y2)`. -/
def cartwright (x0 y0 x1 y1 x2 y2 : ℚ) : ℚ :=
  let h0 := x1 - x0
  let h1 := x2 - x1
  let alpha := (2 * h1 ^ 2 + 3 * h0 * h1) / (6 * (h1 + h0))
  let beta := (h1 ^ 2 + 3 * h0 * h1) / (6 * h0)
  let eta := h1 ^ 3 / (6 * h0 * (h0 + h1))
  alpha * y2 + beta * y1 - eta * y0

/-- scipy's `simpson` on a list of `(x, y)` samples: plain `_basic_simpson`
for an odd sample count; trapezoid for exactly two samples; otherwise
`_basic_simpson` on all but the last sample plus Cartwright's correction.
(scipy raises on an empty input axis; emptiness is handled at the pipeline
level, see `overlapJ`.) -/
def simpsonPts (pts : List (ℚ × ℚ)) : ℚ :=
  if pts.length % 2 = 1 then basicSimpson pts
  else if pts.length = 2 then
    match pts with
    | [(x0, y0), (x1, y1)] => (x1 - x0) / 2 * (y1 + y0)
    | _ => 0
  else
    match pts.reverse with
    | (x2, y2) :: (x1, y1) :: (x0, y0) :: _ =>
        basicSimpson pts.dropLast + cartwright x0 y0 x1 y1 x2 y2
    | _ => 0

/-- `simpson(y=..., x=...)` exactly as called by `fret_app.py`. -/
def simpson (y x : List ℚ) : ℚ := simpsonPts (x.zip y)

/-! ### Data model

A cell of the caller's raw table, as seen by `pd.to_numeric(..., errors='coerce')`
at lines 76-77: a cell is already numeric, or a string that parses to a
number, or a value that fails numeric coercion, or missing (NaN). -/

/-- A raw table cell, classified by its behaviour under numeric coercion. -/
inductive Cell where
  | num (q : ℚ)
  | numStr (q : ℚ)
  | nonNum (tag : ℕ)
  | nan
deriving DecidableEq

/-- `pd.to_numeric(c, errors='coerce')` on one cell: `none` models NaN. -/
def coerceCell : Cell → Option ℚ
  | .num q => some q
  | .numStr q => some q
  | .nonNum _ => none
  | .nan => none

/-- The cell value written back into the dataframe by line 77: the coerced
number, or NaN when coercion fails. -/
def coercedCell (c : Cell) : Cell :=
  match coerceCell c with
  | some q => .num q
  | none => .nan

/-- One raw table row: the three designated columns (wavelength, donor
intensity, acceptor absorptivity) plus the untouched remaining columns. -/
structure Row where
  wl : Cell
  iD : Cell
  eA : Cell
  rest : List Cell
deriving DecidableEq

/-- Line 76-77 of `fret_app.py` on one row: `df[col] = pd.to_numeric(df[col],
errors='coerce')` for the three designated columns; other columns untouched. -/
def coerceRow (r : Row) : Row :=
  { r with wl := coercedCell r.wl, iD := coercedCell r.iD, eA := coercedCell r.eA }

/-- The in-place coercion loop of lines 76-77, applied to the whole table:
this is the state of the caller's dataframe `df` after the loop. -/
def coerceTable (t : List Row) : List Row := t.map coerceRow

/-- One cleaned spectral sample (a row of `clean_df` restricted to the three
designated columns). -/
structure Sample where
  wl : ℚ
  iD : ℚ
  eA : ℚ
deriving DecidableEq

/-- A row survives `dropna(subset=[wl_col, id_col, ea_col])` exactly when all
three designated cells coerce to numbers. -/
def rowSample (r : Row) : Option Sample :=
  match coerceCell r.wl, coerceCell r.iD, coerceCell r.eA with
  | some w, some d, some e => some ⟨w, d, e⟩
  | _, _, _ => none

/-- Comparison key of `sort_values(by=wl_col)`. -/
def wlLe (a b : Sample) : Prop := a.wl ≤ b.wl

instance : DecidableRel wlLe := fun a b => inferInstanceAs (Decidable (a.wl ≤ b.wl))

instance : IsTotal Sample wlLe := ⟨fun a b => le_total a.wl b.wl⟩

instance : IsTrans Sample wlLe := ⟨fun _ _ _ h h2 => le_trans h h2⟩

/-- Line 79: `clean_df = df.dropna(subset=[wl_col, id_col, ea_col]).sort_values(by=wl_col)`,
run on the already-coerced dataframe.  pandas' default `sort_values` is an
unstable quicksort, so only properties independent of the relative order of
equal wavelengths are proved about the sort; the embedding fixes insertion
sort as one ascending-by-wavelength order. -/
def cleanDf (t : List Row) : List Sample :=
  List.insertionSort wlLe ((coerceTable t).filterMap rowSample)

/-! ### Overlap integral pipeline (lines 83-88)

`area_id = simpson(y=clean_df[id_col], x=clean_df[wl_col])`,
`norm_Id = clean_df[id_col] / area_id`,
`J_integrand = norm_Id * clean_df[ea_col] * wl**4`,
`j_value = simpson(y=J_integrand, x=clean_df[wl_col])`.

There is no check on `area_id` in the source: numpy division by zero on a
series emits non-finite values without raising, and `ℚ`'s convention
`q / 0 = 0` likewise produces junk values without any error path. -/

/-- Wavelength column of the cleaned dataframe. -/
def wls (ds : List Sample) : List ℚ := ds.map Sample.wl

/-- Donor intensity column of the cleaned dataframe. -/
def donorIs (ds : List Sample) : List ℚ := ds.map Sample.iD

/-- Line 83: `area_id = simpson(y=clean_df[id_col], x=clean_df[wl_col])`. -/
def areaId (ds : List Sample) : ℚ := simpson (donorIs ds) (wls ds)

/-- Line 84: the `norm_Id` column, `clean_df[id_col] / area_id`. -/
def normId (ds : List Sample) : List ℚ := ds.map fun s => s.iD / areaId ds

/-- Line 87: the `J_integrand` column, `norm_Id * clean_df[ea_col] * wl**4`. -/
def jIntegrand (ds : List Sample) : List ℚ :=
  ds.map fun s => s.iD / areaId ds * s.eA * s.wl ^ 4

/-- Line 88: `j_value = simpson(y=J_integrand, x=clean_df[wl_col])`. -/
def jValue (ds : List Sample) : ℚ := simpson (jIntegrand ds) (wls ds)

/-- Errors the Python block can actually raise: float division by zero
(`ZeroDivisionError`) and scipy/numpy failing on an empty integration axis. -/
inductive CalcErr where
  | zeroDivisionError
  | emptyAxisError
deriving DecidableEq

/-- Lines 83-88 as executed: scipy raises (a generic numpy error, not any
domain error) only when the cleaned table is empty; otherwise the area and
`J` are always produced, with no check on `area_id`. -/
def overlapJ (t : List Row) : Except CalcErr (ℚ × ℚ) :=
  let ds := cleanDf t
  if ds.length = 0 then .error .emptyAxisError
  else .ok (areaId ds, jValue ds)

/-! ### Forster distance, efficiency, and range validation (lines 92-98, 135-138) -/

/-- The `**` of the source modelled as the complex principal power of the
real arguments.  For a nonnegative base this is the real power, which is
what both numpy `float64` (line 92, whose radicand is a numpy scalar) and
pure Python floats (line 98) compute, so on nonnegative bases `pyPow` is
faithful to both lines; it is used only there.  For the negative-base
behaviour of line 92 — numpy silently yields NaN, never a complex value —
see `numpyPow` and `r0F`. -/
noncomputable def pyPow (b e : ℝ) : ℂ := (b : ℂ) ^ (e : ℂ)

/-- Line 92: `r0 = 0.02108 * ((k2 * phi_d * (n**-4) * j_value) ** (1/6))`,
via `pyPow`; faithful on a nonnegative radicand (where the complex
principal power is the real sixth root numpy computes) and used only
there. -/
noncomputable def r0C (k2 phiD n j : ℝ) : ℂ :=
  ((0.02108 : ℝ) : ℂ) * pyPow (k2 * phiD * n ^ (-4 : ℤ) * j) (1 / 6)

/-- numpy `float64` `**` as line 92 executes it (the radicand is a numpy
scalar because `j_value` comes from `scipy.integrate.simpson`), for the
non-integral exponent `1/6` used there: a nonnegative base gives the real
power, a negative base silently gives NaN (a RuntimeWarning, never an
exception and never a complex value).  NaN is modelled as `none`. -/
noncomputable def numpyPow (b e : ℝ) : Option ℝ :=
  if 0 ≤ b then some (b ^ e) else none

/-- Line 92 with numpy `float64` power semantics: the NaN of a
negative-base power propagates through the multiplication by `0.02108`,
so `R0` is NaN (`none`) exactly when the power is. -/
noncomputable def r0F (k2 phiD n j : ℝ) : Option ℝ :=
  (numpyPow (k2 * phiD * n ^ (-4 : ℤ) * j) (1 / 6)).map fun v => 0.02108 * v

/-- Line 96: `e_efficiency = 1 - (f_val / f0)`; Python float division raises
`ZeroDivisionError` when `f0 == 0`. -/
def eEfficiency (f0 fVal : ℚ) : Except CalcErr ℚ :=
  if f0 = 0 then .error .zeroDivisionError else .ok (1 - fVal / f0)

/-- Line 98: `r_distance = r0 * (((1 - e_efficiency) / e_efficiency) ** (1/6))`;
Python raises `ZeroDivisionError` when the efficiency is `0`. -/
noncomputable def rDistance (r0 : ℂ) (e : ℚ) : Except CalcErr ℂ :=
  if e = 0 then .error .zeroDivisionError
  else .ok (r0 * pyPow (((1 - e) / e : ℚ) : ℝ) (1 / 6))

/-- Lines 96-98 in sequence: efficiency then distance. -/
noncomputable def effDist (f0 fVal : ℚ) (r0 : ℂ) : Except CalcErr (ℚ × ℂ) := do
  let e ← eEfficiency f0 fVal
  let r ← rDistance r0 e
  pure (e, r)

/-- Lines 135-138: `0.5 * r0 <= r_distance <= 1.5 * r0`, success branch
versus warning branch; a total function that never raises. -/
def rangeValidator (rDist r0 : ℚ) : Bool :=
  decide (0.5 * r0 ≤ rDist ∧ rDist ≤ 1.5 * r0)

/-! ### Auxiliary definitions used only to state properties -/

/-- Multiply every donor-intensity value of a cleaned dataset by `c`
(used to state the scaling invariance of the overlap integral). -/
def scaleDonor (c : ℚ) (ds : List Sample) : List Sample :=
  ds.map fun s => ⟨s.wl, c * s.iD, s.eA⟩

/-- A uniformly spaced grid `a, a+h, ..., a+(n-1)h`. -/
def grid (a h : ℚ) : ℕ → List ℚ
  | 0 => []
  | n + 1 => a :: grid (a + h) h n

/-- A polynomial of degree at most 3, `c0 + c1*x + c2*x^2 + c3*x^3`. -/
def cubicEval (c0 c1 c2 c3 x : ℚ) : ℚ := c0 + c1 * x + c2 * x ^ 2 + c3 * x ^ 3

/-- Antiderivative of `cubicEval c0 c1 c2 c3`. -/
def cubicPrim (c0 c1 c2 c3 x : ℚ) : ℚ :=
  c0 * x + c1 * x ^ 2 / 2 + c2 * x ^ 3 / 3 + c3 * x ^ 4 / 4

/-- Closed-form integral of `cubicEval c0 c1 c2 c3` over `[lo, hi]`. -/
def cubicInt (c0 c1 c2 c3 lo hi : ℚ) : ℚ :=
  cubicPrim c0 c1 c2 c3 hi - cubicPrim c0 c1 c2 c3 lo

/-- A cell that the in-place coercion of lines 76-77 leaves unchanged:
already numeric, or already missing. -/
def cellUntouched : Cell → Bool
  | .num _ => true
  | .nan => true
  | .numStr _ => false
  | .nonNum _ => false

/-- Concrete raw table whose donor column is identically zero (flat donor
spectrum): two valid rows, donor area 0. -/
def tFlat : List Row :=
  [⟨.num 0, .num 0, .num 1, []⟩, ⟨.num 1, .num 0, .num 1, []⟩]

/-- Concrete raw table with one valid row and one row whose wavelength fails
numeric coercion: fewer than 2 rows remain after cleaning. -/
def tShort : List Row :=
  [⟨.num 1, .num 2, .num 3, []⟩, ⟨.nonNum 0, .num 1, .num 1, []⟩]

/-- Concrete raw table with a single fully numeric row. -/
def tOneRow : List Row := [⟨.num 1, .num 2, .num 3, []⟩]

/-! ### Unfolding equations for the integrator -/

theorem basicSimpsonAux_nil (p : ℚ × ℚ) : basicSimpsonAux p [] = 0 := rfl

theorem basicSimpsonAux_single (p q : ℚ × ℚ) : basicSimpsonAux p [q] = 0 := rfl

theorem basicSimpsonAux_cons_cons (x0 y0 x1 y1 x2 y2 : ℚ) (rest : List (ℚ × ℚ)) :
    basicSimpsonAux (x0, y0) ((x1, y1) :: (x2, y2) :: rest) =
      simpPair x0 y0 x1 y1 x2 y2 + basicSimpsonAux (x2, y2) rest := rfl

/-! ### Linearity of the integrator in the sample values -/

theorem simpPair_smul (c x0 y0 x1 y1 x2 y2 : ℚ) :
    simpPair x0 (c * y0) x1 (c * y1) x2 (c * y2) = c * simpPair x0 y0 x1 y1 x2 y2 := by
  simp only [simpPair]
  ring

theorem cartwright_smul (c x0 y0 x1 y1 x2 y2 : ℚ) :
    cartwright x0 (c * y0) x1 (c * y1) x2 (c * y2) = c * cartwright x0 y0 x1 y1 x2 y2 := by
  simp only [cartwright]
  ring

theorem basicSimpsonAux_smul (c x0 y0 : ℚ) (l : List (ℚ × ℚ)) :
    basicSimpsonAux (x0, c * y0) (l.map fun q => (q.1, c * q.2)) =
      c * basicSimpsonAux (x0, y0) l := by
  match l with
  | [] => simp [basicSimpsonAux_nil]
  | [q] => simp [basicSimpsonAux_single]
  | (x1, y1) :: (x2, y2) :: rest =>
    have ih := basicSimpsonAux_smul c x2 y2 rest
    simp only [List.map_cons, basicSimpsonAux_cons_cons]
    rw [ih, simpPair_smul]
    ring

theorem basicSimpson_smul (c : ℚ) (l : List (ℚ × ℚ)) :
    basicSimpson (l.map fun q => (q.1, c * q.2)) = c * basicSimpson l := by
  match l with
  | [] => simp [basicSimpson]
  | (x0, y0) :: tl =>
    simp only [List.map_cons, basicSimpson]
    exact basicSimpsonAux_smul c x0 y0 tl

theorem simpsonPts_smul (c : ℚ) (pts : List (ℚ × ℚ)) :
    simpsonPts (pts.map fun q => (q.1, c * q.2)) = c * simpsonPts pts := by
  unfold simpsonPts
  rw [List.length_map]
  by_cases hodd : pts.length % 2 = 1
  · rw [if_pos hodd, if_pos hodd, basicSimpson_smul]
  · rw [if_neg hodd, if_neg hodd]
    by_cases h2 : pts.length = 2
    · rw [if_pos h2, if_pos h2]
      match pts, h2 with
      | [(x0, y0), (x1, y1)], _ =>
        simp only [List.map_cons, List.map_nil]
        ring
    · rw [if_neg h2, if_neg h2]
      match hrev : pts.reverse with
      | [] =>
        have h0 : pts = [] := by
          have := congrArg List.reverse hrev
          simpa using this
        subst h0
        simp
      | [p] =>
        have h1 : pts.length = 1 := by
          have := congrArg List.length hrev
          simpa using this
        omega
      | [p, q] =>
        have h1 : pts.length = 2 := by
          have := congrArg List.length hrev
          simpa using this
        omega
      | (x2, y2) :: (x1, y1) :: (x0, y0) :: tail =>
        rw [← List.map_reverse, hrev]
        simp only [List.map_cons]
        rw [← List.map_dropLast, basicSimpson_smul, cartwright_smul]
        ring

theorem simpson_smul (c : ℚ) (y x : List ℚ) :
    simpson (y.map fun v => c * v) x = c * simpson y x := by
  unfold simpson
  rw [List.zip_map_right]
  have hmap : Prod.map (id : ℚ → ℚ) (fun v => c * v) = fun q : ℚ × ℚ => (q.1, c * q.2) := by
    funext q
    cases q
    simp [Prod.map]
  rw [hmap, simpsonPts_smul]

theorem simpson_div (y x : List ℚ) (A : ℚ) :
    simpson (y.map fun v => v / A) x = simpson y x / A := by
  have h : (fun v : ℚ => v / A) = fun v : ℚ => A⁻¹ * v := by
    funext v
    rw [inv_mul_eq_div]
  rw [h, simpson_smul, inv_mul_eq_div]

/-- C1: for every valid spectral dataset (length at least 2, nonzero donor
area), the normalized donor curve `norm_Id` produced at line 84 integrates,
via the same `simpson` call the code uses, back to exactly 1 (exact
arithmetic subsumes the claimed small relative tolerance). -/
theorem normId_integrates_to_one (ds : List Sample) (hlen : 2 ≤ ds.length)
    (hA : areaId ds ≠ 0) : simpson (normId ds) (wls ds) = 1 := by
  have h1 : normId ds = (donorIs ds).map fun v => v / areaId ds := by
    simp [normId, donorIs, List.map_map, Function.comp]
  rw [h1, simpson_div]
  exact div_self hA

/-- Witness for C1 at the concrete dataset with wavelengths `[0, 1, 2]`,
donor intensities `[0, 1, 0]`, absorptivities `[1, 1, 1]`. -/
theorem normId_integrates_to_one_witness :
    2 ≤ ([⟨0, 0, 1⟩, ⟨1, 1, 1⟩, ⟨2, 0, 1⟩] : List Sample).length ∧
      areaId [⟨0, 0, 1⟩, ⟨1, 1, 1⟩, ⟨2, 0, 1⟩] ≠ 0 ∧
      simpson (normId [⟨0, 0, 1⟩, ⟨1, 1, 1⟩, ⟨2, 0, 1⟩])
        (wls [⟨0, 0, 1⟩, ⟨1, 1, 1⟩, ⟨2, 0, 1⟩]) = 1 := by
  have hlen : 2 ≤ ([⟨0, 0, 1⟩, ⟨1, 1, 1⟩, ⟨2, 0, 1⟩] : List Sample).length := by
    norm_num
  have hA : areaId [(⟨0, 0, 1⟩ : Sample), ⟨1, 1, 1⟩, ⟨2, 0, 1⟩] ≠ 0 := by
    norm_num [areaId, donorIs, wls, simpson, simpsonPts, basicSimpson,
      basicSimpsonAux, simpPair]
  exact ⟨hlen, hA, normId_integrates_to_one _ hlen hA⟩

/-! ### Invariance of the overlap integral under donor rescaling -/

theorem wls_scaleDonor (c : ℚ) (ds : List Sample) : wls (scaleDonor c ds) = wls ds := by
  simp [wls, scaleDonor, List.map_map, Function.comp]

theorem donorIs_scaleDonor (c : ℚ) (ds : List Sample) :
    donorIs (scaleDonor c ds) = (donorIs ds).map fun v => c * v := by
  simp [donorIs, scaleDonor, List.map_map, Function.comp]

theorem areaId_scaleDonor (c : ℚ) (ds : List Sample) :
    areaId (scaleDonor c ds) = c * areaId ds := by
  unfold areaId
  rw [donorIs_scaleDonor, wls_scaleDonor, simpson_smul]

theorem jIntegrand_scaleDonor (c : ℚ) (ds : List Sample) (hc : c ≠ 0) :
    jIntegrand (scaleDonor c ds) = jIntegrand ds := by
  unfold jIntegrand
  rw [areaId_scaleDonor]
  simp only [scaleDonor, List.map_map]
  apply List.map_congr_left
  intro s _
  simp only [Function.comp]
  rw [mul_div_mul_left _ _ hc]

/-- C10: multiplying every donor-intensity value by a positive constant `c`
leaves the overlap integral `J` of line 88, and therefore the Forster
distance of line 92, unchanged, because line 84 divides the donor curve by
its own integrated area before the integrand of line 87 is formed. -/
theorem jValue_donor_scale_invariant (ds : List Sample) (c : ℚ) (k2 phiD n : ℝ)
    (hc : 0 < c) (hA : areaId ds ≠ 0) :
    jValue (scaleDonor c ds) = jValue ds ∧
      r0C k2 phiD n (jValue (scaleDonor c ds) : ℚ) = r0C k2 phiD n (jValue ds : ℚ) := by
  have hJ : jValue (scaleDonor c ds) = jValue ds := by
    unfold jValue
    rw [jIntegrand_scaleDonor c ds (ne_of_gt hc), wls_scaleDonor]
  exact ⟨hJ, by rw [hJ]⟩

/-- Witness for C10 at a concrete dataset and `c = 2`. -/
theorem jValue_donor_scale_invariant_witness :
    jValue (scaleDonor 2 [⟨0, 0, 1⟩, ⟨1, 1, 1⟩, ⟨2, 0, 1⟩]) =
        jValue [⟨0, 0, 1⟩, ⟨1, 1, 1⟩, ⟨2, 0, 1⟩] ∧
      r0C 1 1 1 (jValue (scaleDonor 2 [⟨0, 0, 1⟩, ⟨1, 1, 1⟩, ⟨2, 0, 1⟩]) : ℚ) =
        r0C 1 1 1 (jValue [⟨0, 0, 1⟩, ⟨1, 1, 1⟩, ⟨2, 0, 1⟩] : ℚ) := by
  have hA : areaId [(⟨0, 0, 1⟩ : Sample), ⟨1, 1, 1⟩, ⟨2, 0, 1⟩] ≠ 0 := by
    norm_num [areaId, donorIs, wls, simpson, simpsonPts, basicSimpson,
      basicSimpsonAux, simpPair]
  exact jValue_donor_scale_invariant _ 2 1 1 1 (by norm_num) hA

/-! ### Exactness of the integrator on uniform grids for cubics -/

theorem grid_length (a h : ℚ) (n : ℕ) : (grid a h n).length = n := by
  induction n generalizing a with
  | zero => simp [grid]
  | succ n ih => simp [grid, ih]

theorem grid_one_step (a h : ℚ) (n : ℕ) : grid a h (n + 1) = a :: grid (a + h) h n := rfl

theorem grid_two_step (a h : ℚ) (n : ℕ) :
    grid a h (n + 2) = a :: (a + h) :: grid (a + h + h) h n := rfl

theorem zip_self_map (l : List ℚ) (f : ℚ → ℚ) :
    l.zip (l.map f) = l.map fun x => (x, f x) := by
  induction l with
  | nil => simp
  | cons a tl ih => simp [ih]

theorem simpPair_cubic (c0 c1 c2 c3 a h : ℚ) (hh : h ≠ 0) :
    simpPair a (cubicEval c0 c1 c2 c3 a) (a + h) (cubicEval c0 c1 c2 c3 (a + h))
        (a + h + h) (cubicEval c0 c1 c2 c3 (a + h + h)) =
      cubicInt c0 c1 c2 c3 a (a + h + h) := by
  simp only [simpPair, cubicEval, cubicInt, cubicPrim]
  have e0 : a + h - a = h := by ring
  have e1 : a + h + h - (a + h) = h := by ring
  rw [e0, e1]
  field_simp
  ring

theorem basicSimpson_cubic (c0 c1 c2 c3 h : ℚ) (hh : h ≠ 0) :
    ∀ (k : ℕ) (a : ℚ),
      basicSimpson ((grid a h (2 * k + 1)).map fun x => (x, cubicEval c0 c1 c2 c3 x)) =
        cubicInt c0 c1 c2 c3 a (a + 2 * (k : ℚ) * h) := by
  intro k
  induction k with
  | zero =>
    intro a
    simp [grid, basicSimpson, basicSimpsonAux_nil, cubicInt]
  | succ k ih =>
    intro a
    have ih2 := ih (a + h + h)
    rw [show grid (a + h + h) h (2 * k + 1) = (a + h + h) :: grid (a + h + h + h) h (2 * k)
        from rfl, List.map_cons] at ih2
    simp only [basicSimpson] at ih2
    have hsplit : 2 * (k + 1) + 1 = 2 * k + 1 + 2 := by ring
    rw [hsplit, grid_two_step, List.map_cons, List.map_cons,
      show grid (a + h + h) h (2 * k + 1) = (a + h + h) :: grid (a + h + h + h) h (2 * k)
        from rfl, List.map_cons]
    simp only [basicSimpson, basicSimpsonAux_cons_cons]
    rw [ih2, simpPair_cubic c0 c1 c2 c3 a h hh]
    simp only [cubicInt, cubicPrim]
    push_cast
    ring

/-- C2 (amended): scipy's `simpson` is exact for every polynomial of degree
at most 3 on a uniformly spaced strictly increasing grid with an odd number
of points, and in particular returns exactly `4/3` on `x = [0, 1, 2]`,
`y = [0, 1, 0]`.  (On non-uniform grids exactness for cubics fails, see the
counterexample.) -/
theorem simpson_exact_cubic_uniform :
    (∀ (c0 c1 c2 c3 a h : ℚ) (k : ℕ), 0 < h →
        simpson ((grid a h (2 * k + 1)).map (cubicEval c0 c1 c2 c3))
            (grid a h (2 * k + 1)) =
          cubicInt c0 c1 c2 c3 a (a + 2 * (k : ℚ) * h)) ∧
      simpson [0, 1, 0] [0, 1, 2] = 4 / 3 := by
  constructor
  · intro c0 c1 c2 c3 a h k hh
    unfold simpson
    rw [zip_self_map]
    have hlen :
        ((grid a h (2 * k + 1)).map fun x => (x, cubicEval c0 c1 c2 c3 x)).length % 2 = 1 := by
      rw [List.length_map, grid_length]
      omega
    unfold simpsonPts
    rw [if_pos hlen]
    exact basicSimpson_cubic c0 c1 c2 c3 h (ne_of_gt hh) k a
  · norm_num [simpson, simpsonPts, basicSimpson, basicSimpsonAux, simpPair]

/-- Witness for C2 (amended) at the quadratic `2x - x^2` on the uniform grid
`[0, 1, 2]`, where the sampled values are `[0, 1, 0]`. -/
theorem simpson_exact_cubic_uniform_witness :
    simpson ((grid 0 1 (2 * 1 + 1)).map (cubicEval 0 2 (-1) 0)) (grid 0 1 (2 * 1 + 1)) =
      cubicInt 0 2 (-1) 0 0 (0 + 2 * ((1 : ℕ) : ℚ) * 1) :=
  simpson_exact_cubic_uniform.1 0 2 (-1) 0 0 1 1 (by norm_num)

/-- C2 counterexample: on the strictly increasing but non-uniform grid
`x = [0, 1, 3]` sampling the cubic `x^3` (`y = [0, 1, 27]`), the code's
integrator returns `45/2` while the exact integral is `81/4`, so
`simpson` is not exact for all cubics on all strictly increasing grids. -/
theorem simpson_cubic_nonuniform_counterexample :
    List.Chain' (fun p q : ℚ => p < q) [0, 1, 3] ∧
      ([0, 1, 3] : List ℚ).length = 3 ∧
      ([0, 1, 27] : List ℚ) = [0, 1, 3].map (cubicEval 0 0 0 1) ∧
      simpson [0, 1, 27] [0, 1, 3] = 45 / 2 ∧
      cubicInt 0 0 0 1 0 3 = 81 / 4 ∧
      (45 / 2 : ℚ) ≠ 81 / 4 := by
  refine ⟨?_, ?_, ?_, ?_, ?_, ?_⟩ <;>
    norm_num [List.chain'_cons, cubicEval, cubicInt, cubicPrim, simpson,
      simpsonPts, basicSimpson, basicSimpsonAux, simpPair]

/-! ### The Forster distance formula (line 92) -/

theorem pyPow_of_nonneg (b e : ℝ) (hb : 0 ≤ b) : pyPow b e = ((b ^ e : ℝ) : ℂ) := by
  unfold pyPow
  exact (Complex.ofReal_cpow hb e).symm

/-- C3: the Forster distance of line 92 is
`R0 = 0.02108 * (k2 * phi_d * n^-4 * J)^(1/6)` (this is `r0C` literally), and
scaling `J` by 64 while holding the positive constants fixed scales `R0` by
exactly 2. -/
theorem r0_scales_by_two (k2 phiD n j : ℝ) (hk : 0 < k2) (hp : 0 < phiD)
    (hn : 0 < n) (hj : 0 ≤ j) :
    r0C k2 phiD n (64 * j) = 2 * r0C k2 phiD n j := by
  have hn4 : (0 : ℝ) ≤ n ^ (-4 : ℤ) := le_of_lt (zpow_pos hn _)
  have hrad : 0 ≤ k2 * phiD * n ^ (-4 : ℤ) * j :=
    mul_nonneg (mul_nonneg (mul_nonneg hk.le hp.le) hn4) hj
  have harg : k2 * phiD * n ^ (-4 : ℤ) * (64 * j) =
      64 * (k2 * phiD * n ^ (-4 : ℤ) * j) := by ring
  unfold r0C
  rw [harg, pyPow_of_nonneg _ _ (by linarith), pyPow_of_nonneg _ _ hrad,
    Real.mul_rpow (by norm_num) hrad]
  have h64 : (64 : ℝ) ^ (1 / 6 : ℝ) = 2 := by
    rw [show (64 : ℝ) = 2 ^ (6 : ℕ) by norm_num, ← Real.rpow_natCast 2 6,
      ← Real.rpow_mul (by norm_num)]
    norm_num
  rw [h64]
  push_cast
  ring

/-- Witness for C3 at `k2 = phi_d = n = 1`, `J = 1`. -/
theorem r0_scales_by_two_witness : r0C 1 1 1 (64 * 1) = 2 * r0C 1 1 1 1 :=
  r0_scales_by_two 1 1 1 1 (by norm_num) (by norm_num) (by norm_num) (by norm_num)

/-- C6 (amended): line 92 performs no domain check.  For a positive radicand
it succeeds and the returned `R0` is real and strictly positive; for a
negative radicand numpy's `float64` power silently yields NaN (no exception,
no complex value), which propagates into `R0` — no `NumericDomainError` is
raised. -/
theorem r0F_radicand_sign_spec (k2 phiD n j : ℝ) :
    (0 < k2 * phiD * n ^ (-4 : ℤ) * j →
        ∃ v, r0F k2 phiD n j = some v ∧ 0 < v) ∧
      (k2 * phiD * n ^ (-4 : ℤ) * j < 0 → r0F k2 phiD n j = none) := by
  constructor
  · intro hrad
    refine ⟨0.02108 * (k2 * phiD * n ^ (-4 : ℤ) * j) ^ (1 / 6 : ℝ), ?_, ?_⟩
    · unfold r0F numpyPow
      rw [if_pos hrad.le]
      rfl
    · have hpow := Real.rpow_pos_of_pos hrad (1 / 6)
      positivity
  · intro hrad
    unfold r0F numpyPow
    rw [if_neg (not_le.mpr hrad)]
    rfl

/-- Witness for C6 (amended) at `k2 = phi_d = n = 1`, `J = 1`. -/
theorem r0F_radicand_sign_spec_witness :
    ∃ v, r0F 1 1 1 1 = some v ∧ 0 < v :=
  (r0F_radicand_sign_spec 1 1 1 1).1 (by norm_num [one_zpow])

/-- C6 counterexample: at `k2 = 1`, `phi_d = 1`, `n = 1`, `J = -1` the
radicand is `-1 < 0` and line 92 silently produces NaN for `R0` (numpy
`float64` power of a negative base, modelled as `none`) — a NaN result,
exactly what the claim says the code avoids, and no `NumericDomainError`. -/
theorem r0_negative_radicand_nan :
    (1 : ℝ) * 1 * (1 : ℝ) ^ (-4 : ℤ) * (-1) < 0 ∧ r0F 1 1 1 (-1) = none := by
  constructor
  · norm_num [one_zpow]
  · unfold r0F numpyPow
    rw [if_neg (by norm_num [one_zpow])]
    rfl

/-! ### Efficiency and distance (lines 96-98) -/

/-- C7: lines 96-98 raise on a float division by zero exactly in the two
claimed cases — `f0 = 0` (computing `E`) and `f = f0` (then `E = 0` and the
`r` formula divides by it) — and for `f0 > 0` the input `f = 0` yields
`E = 1`. -/
theorem effDist_zero_division_spec (f0 fVal : ℚ) (r0 : ℂ) :
    ((f0 = 0 ∨ fVal = f0) → (effDist f0 fVal r0).isOk = false) ∧
      (0 < f0 → eEfficiency f0 0 = .ok 1) := by
  constructor
  · rintro (h0 | hf)
    · simp [effDist, eEfficiency, h0, Except.isOk, Except.toBool, Except.bind, Bind.bind]
    · by_cases h0 : f0 = 0
      · simp [effDist, eEfficiency, h0, Except.isOk, Except.toBool, Except.bind, Bind.bind]
      · have he : 1 - fVal / f0 = 0 := by
          rw [hf, div_self h0]
          ring
        simp [effDist, eEfficiency, rDistance, h0, he, Except.isOk, Except.toBool,
          Except.bind, Bind.bind]
  · intro h0
    simp [eEfficiency, h0.ne']

/-- Witness for C7 at `f0 = f = 2` (failure case) and `f0 = 2`, `f = 0`
(efficiency-one case). -/
theorem effDist_zero_division_spec_witness :
    (effDist 2 2 5).isOk = false ∧ eEfficiency 2 0 = .ok 1 :=
  ⟨(effDist_zero_division_spec 2 2 5).1 (Or.inr rfl),
    (effDist_zero_division_spec 2 0 5).2 (by norm_num)⟩

/-! ### Range validation (lines 135-138) -/

/-- C8: the validation branch returns the success verdict exactly when
`0.5 * r0 <= r <= 1.5 * r0`, otherwise the warning verdict; it is a total
function of the two numbers (never raises), and for positive `R0` the
distance `r = R0` validates while `r = 3 * R0` does not. -/
theorem rangeValidator_spec (rDist r0 : ℚ) :
    (rangeValidator rDist r0 = true ↔ 0.5 * r0 ≤ rDist ∧ rDist ≤ 1.5 * r0) ∧
      (0 < r0 → rangeValidator r0 r0 = true ∧ rangeValidator (3 * r0) r0 = false) := by
  constructor
  · simp [rangeValidator]
  · intro h
    constructor
    · simp only [rangeValidator, decide_eq_true_eq]
      constructor <;> nlinarith
    · simp only [rangeValidator, decide_eq_false_iff_not, not_and]
      intro h1
      nlinarith

/-- Witness for C8 at `R0 = 2`. -/
theorem rangeValidator_spec_witness :
    rangeValidator 2 2 = true ∧ rangeValidator (3 * 2) 2 = false :=
  (rangeValidator_spec 0 2).2 (by norm_num)

/-! ### Data cleaning (lines 76-79) -/

theorem coerceCell_coercedCell (c : Cell) : coerceCell (coercedCell c) = coerceCell c := by
  cases c <;> rfl

theorem rowSample_coerceRow (r : Row) : rowSample (coerceRow r) = rowSample r := by
  cases r with
  | mk wl iD eA rest => simp [rowSample, coerceRow, coerceCell_coercedCell]

theorem filterMap_coerceTable (t : List Row) :
    (coerceTable t).filterMap rowSample = t.filterMap rowSample := by
  unfold coerceTable
  rw [List.filterMap_map, show rowSample ∘ coerceRow = rowSample from funext rowSample_coerceRow]

theorem cleanDf_length (t : List Row) :
    (cleanDf t).length = (t.filterMap rowSample).length := by
  unfold cleanDf
  rw [(List.perm_insertionSort wlLe _).length_eq, filterMap_coerceTable]

/-- C4 (amended): the cleaning of lines 76-79 keeps exactly the rows whose
three designated values coerce to numbers and returns them sorted ascending
by wavelength (the relative order of equal wavelengths is not asserted:
pandas' default `sort_values` is an unstable quicksort), and when fewer than
2 rows remain it raises no `DataQualityError`: the pipeline proceeds and the
J computation succeeds on any nonempty cleaned dataset. -/
theorem cleanDf_spec (t : List Row) :
    List.Sorted wlLe (cleanDf t) ∧
      (cleanDf t).Perm (t.filterMap rowSample) ∧
      (cleanDf t ≠ [] → (overlapJ t).isOk = true) := by
  refine ⟨List.sorted_insertionSort wlLe _, ?_, ?_⟩
  · unfold cleanDf
    rw [filterMap_coerceTable]
    exact List.perm_insertionSort wlLe _
  · intro hne
    simp [overlapJ, List.length_eq_zero, hne, Except.isOk, Except.toBool]

/-- Witness for C4 (amended) at the one-row table `tOneRow`. -/
theorem cleanDf_spec_witness :
    List.Sorted wlLe (cleanDf tOneRow) ∧
      (cleanDf tOneRow).Perm (tOneRow.filterMap rowSample) ∧
      (overlapJ tOneRow).isOk = true := by
  have h := cleanDf_spec tOneRow
  have hne : cleanDf tOneRow ≠ [] := by
    simp [cleanDf, tOneRow, coerceTable, coerceRow, coercedCell, coerceCell, rowSample]
  exact ⟨h.1, h.2.1, h.2.2 hne⟩

/-- C4 counterexample: on `tShort` exactly one valid row remains after the
coercion step (fewer than 2), yet no `DataQualityError` is raised: the block
proceeds and the J computation returns a value. -/
theorem cleanDf_short_no_error :
    (cleanDf tShort).length = 1 ∧ (overlapJ tShort).isOk = true := by
  have hl : (cleanDf tShort).length = 1 := by
    rw [cleanDf_length]
    simp [tShort, rowSample, coerceCell]
  exact ⟨hl, by simp [overlapJ, hl, Except.isOk, Except.toBool]⟩

/-- C5 (amended): lines 83-88 contain no check on `area_id`: for every raw
table whose cleaned dataset is nonempty, the block computes and returns the
donor area and `J` — never a `NumericDomainError` — even when `area_id = 0`
and the normalization of line 84 divides by zero (producing junk values in
place of an error). -/
theorem overlapJ_no_domain_check (t : List Row) (hne : cleanDf t ≠ []) :
    overlapJ t = .ok (areaId (cleanDf t), jValue (cleanDf t)) := by
  simp [overlapJ, List.length_eq_zero, hne]

/-- Witness for C5 (amended) at the flat-donor table `tFlat`. -/
theorem overlapJ_no_domain_check_witness :
    overlapJ tFlat = .ok (areaId (cleanDf tFlat), jValue (cleanDf tFlat)) := by
  apply overlapJ_no_domain_check
  have hl : (cleanDf tFlat).length = 2 := by
    rw [cleanDf_length]
    simp [tFlat, rowSample, coerceCell]
  intro hnil
  rw [hnil] at hl
  simp at hl

/-- C5 counterexample: on the flat-donor table `tFlat` the integrated donor
area is `0`, yet the overlap-integral block does not fail: it returns a
value for `J` instead of raising `NumericDomainError` before computing it. -/
theorem overlapJ_zero_area_counterexample :
    areaId (cleanDf tFlat) = 0 ∧ (overlapJ tFlat).isOk = true := by
  have hclean : cleanDf tFlat = [⟨0, 0, 1⟩, ⟨1, 0, 1⟩] := by
    norm_num [cleanDf, tFlat, coerceTable, coerceRow, coercedCell, coerceCell,
      rowSample, wlLe]
  constructor
  · rw [hclean]
    norm_num [areaId, donorIs, wls, simpson, simpsonPts, basicSimpson,
      basicSimpsonAux, simpPair]
  · have hl : (cleanDf tFlat).length = 2 := by rw [hclean]; rfl
    simp [overlapJ, hl, Except.isOk, Except.toBool]

/-! ### In-place mutation of the caller's table (lines 76-77) -/

theorem map_eq_self_iff_forall {α : Type} (f : α → α) (l : List α) :
    l.map f = l ↔ ∀ x ∈ l, f x = x := by
  induction l with
  | nil => simp
  | cons a tl ih => simp [ih]

theorem coercedCell_eq_self_iff (c : Cell) :
    coercedCell c = c ↔ cellUntouched c = true := by
  cases c <;> simp [coercedCell, coerceCell, cellUntouched]

theorem coerceRow_eq_self_iff (r : Row) :
    coerceRow r = r ↔ cellUntouched r.wl = true ∧ cellUntouched r.iD = true ∧
      cellUntouched r.eA = true := by
  cases r with
  | mk wl iD eA rest =>
    simp [coerceRow, Row.mk.injEq, coercedCell_eq_self_iff]

/-- C9 (amended): the loop at lines 76-77 writes the coerced columns back
into the caller's dataframe, so the original table is left unchanged exactly
when every designated cell is already numeric or already missing; numeric
strings and non-coercible entries are overwritten in place.  Row count, row
order and the non-designated columns are never modified. -/
theorem coerceTable_mutation_spec (t : List Row) :
    (coerceTable t = t ↔
        ∀ r ∈ t, cellUntouched r.wl = true ∧ cellUntouched r.iD = true ∧
          cellUntouched r.eA = true) ∧
      (coerceTable t).map Row.rest = t.map Row.rest ∧
      (coerceTable t).length = t.length := by
  refine ⟨?_, ?_, ?_⟩
  · unfold coerceTable
    rw [map_eq_self_iff_forall]
    constructor
    · intro h r hr
      exact (coerceRow_eq_self_iff r).mp (h r hr)
    · intro h r hr
      exact (coerceRow_eq_self_iff r).mpr (h r hr)
  · unfold coerceTable
    rw [List.map_map]
    rfl
  · simp [coerceTable]

/-- C9 counterexample: a table holding one row whose wavelength cell fails
numeric coercion is visibly mutated by the cleaning step — the caller's
dataframe is not left unchanged. -/
theorem coerceTable_mutates :
    coerceTable [⟨.nonNum 0, .num 1, .num 2, []⟩] ≠ [⟨.nonNum 0, .num 1, .num 2, []⟩] := by
  simp [coerceTable, coerceRow, coercedCell, coerceCell]

end FretApp
